import Mathlib

/-!
Verification of the Vibe patch engine (vibe_cli.py) against its
natural-language specification.  The Python source is shallowly embedded:
pure text-editing functions become Lean functions on `String` / `List String`,
the filesystem becomes an explicit record threaded through `apply_patch`,
fallible code returns `Except`.  Regular-expression searches for the
user-supplied anchor patterns are passed in as line predicates (the
behaviour of a compiled pattern's `search` on one line); the fixed regexes
hard-coded in the source are embedded concretely.
-/

set_option maxRecDepth 4000

namespace Vibe

/-- Characters that Python str.strip and the regex class \s treat as
whitespace. -/
def pyIsWs (c : Char) : Bool :=
  c = ' ' || c = '\t' || c = '\n' || c = '\r' || c = '\x0b' || c = '\x0c'

/-- Truthiness of Python ln.strip(): the line has at least one
non-whitespace character. -/
def hasContent (s : String) : Bool :=
  s.data.any (fun c => !pyIsWs c)

/-- List-level prefix test used to embed Python str.startswith. -/
def isPre : List Char → List Char → Bool
  | [], _ => true
  | _ :: _, [] => false
  | p :: ps, c :: cs => p == c && isPre ps cs

/-- Python s.startswith(p). -/
def strStartsWith (s p : String) : Bool := isPre p.data s.data

/-- Python replaces \r\n and then \r by \n before splitting lines
(normalized_src in the source). -/
def normChars : List Char → List Char
  | [] => []
  | '\r' :: '\n' :: rest => '\n' :: normChars rest
  | '\r' :: rest => '\n' :: normChars rest
  | c :: rest => c :: normChars rest

/-- src.replace with CRLF and CR folded to LF, as done at the top of
_replace_function, _remove_function and the block helpers. -/
def normalizeNewlines (s : String) : String := String.mk (normChars s.data)

/-- Accumulator version of str.splitlines(keepends=True) restricted to
newline separators (sources are newline-normalized first). -/
def splitLinesKeepAux : List Char → List Char → List (List Char)
  | [], acc => if acc.isEmpty then [] else [acc.reverse]
  | c :: cs, acc =>
    if c = '\n' then (acc.reverse ++ ['\n']) :: splitLinesKeepAux cs []
    else splitLinesKeepAux cs (c :: acc)

/-- Python src.splitlines(keepends=True). -/
def splitKeepEnds (s : String) : List String :=
  (splitLinesKeepAux s.data []).map String.mk

/-- Python "".join(lines). -/
def joinLines (ls : List String) : String :=
  String.mk ((ls.map String.data).flatten)

theorem splitLinesKeepAux_flatten (cs : List Char) :
    ∀ acc, (splitLinesKeepAux cs acc).flatten = acc.reverse ++ cs := by
  induction cs with
  | nil =>
    intro acc
    by_cases h : acc.isEmpty
    · simp [splitLinesKeepAux, h, List.isEmpty_iff.mp h]
    · simp [splitLinesKeepAux, h]
  | cons c cs ih =>
    intro acc
    by_cases h : c = '\n'
    · subst h
      simp [splitLinesKeepAux, ih]
    · simp [splitLinesKeepAux, h, ih]

/-- Joining the keepends split recovers the original string. -/
theorem joinLines_splitKeepEnds (s : String) :
    joinLines (splitKeepEnds s) = s := by
  unfold joinLines splitKeepEnds
  rw [List.map_map]
  have hcomp : (String.data ∘ String.mk) = id := rfl
  rw [hcomp, List.map_id, splitLinesKeepAux_flatten]
  rfl

theorem joinLines_append (a b : List String) :
    joinLines (a ++ b) = joinLines a ++ joinLines b := by
  simp [joinLines]
  rfl

/-- Python ln.lstrip(). -/
def pyLstrip (s : String) : String := String.mk (s.data.dropWhile pyIsWs)

/-- Python ln.rstrip(). -/
def pyRstrip (s : String) : String :=
  String.mk ((s.data.reverse.dropWhile pyIsWs).reverse)

/-- Python ln.strip(). -/
def pyStrip (s : String) : String := pyLstrip (pyRstrip s)

/-- Python s.rstrip(chr) for one character. -/
def rstripChar (c : Char) (s : String) : String :=
  String.mk ((s.data.reverse.dropWhile (fun x => x = c)).reverse)

/-- Python s.lstrip(chr) for one character. -/
def lstripChar (c : Char) (s : String) : String :=
  String.mk (s.data.dropWhile (fun x => x = c))

/-- Python s.rstrip("\n"). -/
def rstripNl (s : String) : String := rstripChar '\n' s

/-- Python s.lstrip("\n"). -/
def lstripNl (s : String) : String := lstripChar '\n' s

/-- len(ln) - len(ln.lstrip()): the indentation width used throughout the
indentation scans. -/
def indentOf (s : String) : Nat := (s.data.takeWhile pyIsWs).length

/-- The leading whitespace text of a line,
anchor_line_content[: len - len(lstrip)] in the add_block handler. -/
def leadingWs (s : String) : String := String.mk (s.data.takeWhile pyIsWs)

/-- Accumulator for Python s.split(passing one separator char). -/
def splitNLAux : List Char → List Char → List (List Char)
  | [], acc => [acc.reverse]
  | c :: cs, acc =>
    if c = '\n' then acc.reverse :: splitNLAux cs [] else splitNLAux cs (c :: acc)

/-- Python s.split(newline): always at least one field, empty fields kept. -/
def splitNL (s : String) : List String := (splitNLAux s.data []).map String.mk

/-- Chars of a newline-joined list of lines. -/
def joinNLCh : List (List Char) → List Char
  | [] => []
  | [l] => l
  | l :: rest => l ++ '\n' :: joinNLCh rest

/-- Python newline.join(lines). -/
def joinNL (ls : List String) : String := String.mk (joinNLCh (ls.map String.data))

/-- A word character for the \w and \b constructs of the hard-coded
regexes. -/
def isWordChar (c : Char) : Bool := c.isAlphanum || c = '_'

/-- A line consisting only of spaces and tabs, which textwrap.dedent blanks
out before computing the margin. -/
def wsOnlyLine (l : String) : Bool :=
  !l.data.isEmpty && l.data.all (fun c => c = ' ' || c = '\t')

/-- A line containing a character other than space and tab (the lines whose
indents determine the dedent margin). -/
def hasNonIndentChar (l : String) : Bool :=
  l.data.any (fun c => !(c = ' ' || c = '\t'))

/-- Longest common prefix of two char lists (the margin fold of
textwrap.dedent). -/
def lcpCh : List Char → List Char → List Char
  | a :: as, b :: bs => if a == b then a :: lcpCh as bs else []
  | _, _ => []

/-- textwrap.dedent: blank out whitespace-only lines, compute the common
leading space/tab margin of the remaining lines, strip it from every line
that carries it. -/
def dedentStr (text : String) : String :=
  let ls := (splitNL text).map (fun l => if wsOnlyLine l then "" else l)
  let indents := (ls.filter hasNonIndentChar).map
    (fun l => l.data.takeWhile (fun c => c = ' ' || c = '\t'))
  let margin := match indents with
    | [] => ([] : List Char)
    | i :: is => is.foldl lcpCh i
  joinNL (ls.map (fun l =>
    if isPre margin l.data then String.mk (l.data.drop margin.length) else l))

/-- The on-disk state under the root directory: files (path to content) and
the set of directories that exist, paths relative to the root. -/
structure FS where
  files : List (String × String)
  dirs : List String
deriving DecidableEq

def assocGet : List (String × String) → String → Option String
  | [], _ => none
  | (k', v) :: rest, k => if k' = k then some v else assocGet rest k

def assocSet : List (String × String) → String → String → List (String × String)
  | [], k, v => [(k, v)]
  | (k', v') :: rest, k, v =>
    if k' = k then (k, v) :: rest else (k', v') :: assocSet rest k v

def fsRead (fs : FS) (p : String) : Option String := assocGet fs.files p

def fsHasFile (fs : FS) (p : String) : Bool := (fsRead fs p).isSome

def fsWrite (fs : FS) (p : String) (content : String) : FS :=
  { fs with files := assocSet fs.files p content }

/-- Accumulator for splitting a path on the slash separator. -/
def splitSlashAux : List Char → List Char → List (List Char)
  | [], acc => [acc.reverse]
  | c :: cs, acc =>
    if c = '/' then acc.reverse :: splitSlashAux cs [] else splitSlashAux cs (c :: acc)

def pathComponents (p : String) : List String :=
  (splitSlashAux p.data []).map String.mk

def joinSlash (ls : List String) : String :=
  String.mk ((ls.map String.data).intersperse ['/']).flatten

/-- Every ancestor directory of the parent of path p, shallowest first
(what Path.mkdir(parents=True) creates as needed). -/
def parentDirsOf (p : String) : List String :=
  let comps := (pathComponents p).dropLast
  (List.range comps.length).map (fun k => joinSlash (comps.take (k + 1)))

/-- target.parent.mkdir(parents=True, exist_ok=True). -/
def fsMkdirParents (fs : FS) (p : String) : FS :=
  { fs with dirs := fs.dirs ++ (parentDirsOf p).filter (fun d => !fs.dirs.contains d) }

def pathParent (p : String) : String := joinSlash (pathComponents p).dropLast

def pathName (p : String) : String :=
  ((pathComponents p).getLast?).getD ""

/-- Split a file name into Path.stem and Path.suffix. -/
def splitExtCh (cs : List Char) : List Char × List Char :=
  let rev := cs.reverse
  let afterDot := rev.takeWhile (fun c => c ≠ '.')
  if afterDot.length = rev.length then (cs, [])
  else
    let stemRev := rev.drop (afterDot.length + 1)
    if stemRev.isEmpty then (cs, []) else (stemRev.reverse, '.' :: afterDot.reverse)

def pathStem (p : String) : String := String.mk (splitExtCh (pathName p).data).1

def pathSuffix (p : String) : String := String.mk (splitExtCh (pathName p).data).2

/-- _backup(target): create the sibling VibeBackups directory and copy the
target there under a timestamped name.  The timestamp string is passed in
explicitly. -/
def fsBackup (fs : FS) (p : String) (ts : String) : FS :=
  let parent := pathParent p
  let bdir := if parent = "" then "VibeBackups" else parent ++ "/VibeBackups"
  let fs1 : FS :=
    { fs with dirs := if fs.dirs.contains bdir then fs.dirs else fs.dirs ++ [bdir] }
  let dest := bdir ++ "/" ++ pathStem p ++ "_" ++ ts ++ pathSuffix p
  fsWrite fs1 dest ((fsRead fs p).getD "")

/-- Patch metadata (the YAML mapping), with scalar values kept as strings. -/
def Meta : Type := List (String × String)

def metaGet (m : Meta) (k : String) : Option String := assocGet m k

def metaHasKey (m : Meta) (k : String) : Bool := (metaGet m k).isSome

/-- Truthiness test of meta.get(k): false for a missing key and for an
empty value. -/
def metaFalsy (m : Meta) (k : String) : Bool :=
  match metaGet m k with
  | none => true
  | some v => v = ""

def metaGetD (m : Meta) (k d : String) : String := (metaGet m k).getD d

def metaSet (m : Meta) (k v : String) : Meta := assocSet m k v

/-- Whether a char list begins with a whitespace character (one step of a
mandatory \s+ in the hard-coded regexes). -/
def headIsWs : List Char → Bool
  | [] => false
  | c :: _ => pyIsWs c

/-- re.match of class plus escaped-name plus word boundary plus any-colon
(the pattern locating a class header in _replace_class, _replace_method and
_remove_class) against one line. -/
def classHeaderMatch (cls : String) (ln : String) : Bool :=
  let cs1 := ln.data.dropWhile pyIsWs
  isPre "class".data cs1 &&
    (let cs2 := cs1.drop 5
     headIsWs cs2 &&
       (let cs3 := cs2.dropWhile pyIsWs
        isPre cls.data cs3 &&
          (let cs4 := cs3.drop cls.data.length
           (match cs4 with
            | [] => true
            | c :: _ => !isWordChar c) &&
             (cs4.takeWhile (fun c => c ≠ '\n')).contains ':')))

/-- re.match of an exact indent prefix, then def, then whitespace, then the
escaped method name, optional whitespace and an opening parenthesis (the
method-locating pattern of _replace_method). -/
def methDefMatch (indentStr meth : String) (ln : String) : Bool :=
  isPre indentStr.data ln.data &&
    (let c1 := ln.data.drop indentStr.data.length
     isPre "def".data c1 &&
       (let c2 := c1.drop 3
        headIsWs c2 &&
          (let c3 := c2.dropWhile pyIsWs
           isPre meth.data c3 &&
             (match (c3.drop meth.data.length).dropWhile pyIsWs with
              | '(' :: _ => true
              | _ => false))))

/-- lines[i].lstrip().startswith("@"): a decorator line, as tested while
widening an extent upwards. -/
def decoratorLine (ln : String) : Bool := strStartsWith (pyLstrip ln) "@"

/-- One line viewed from its start, matching optional whitespace then the
class keyword then mandatory whitespace (a direct per-line match of the
multiline class-search in _append_func_before_class). -/
def classKwHere (l : String) : Bool :=
  let cs := l.data.dropWhile pyIsWs
  isPre "class".data cs && headIsWs (cs.drop 5)

/-- Whether the multiline search for optional-whitespace-class can match
starting from this suffix of the line list: either the first line matches
directly, or it is all whitespace and the match continues below. -/
def classKwFrom : List String → Bool
  | [] => false
  | l :: rest => classKwHere l || (l.data.all pyIsWs && classKwFrom rest)

/-- Index of the line at which re.search for the multiline class pattern
places its earliest match in _append_func_before_class. -/
def classSearchIdx : List String → Option Nat
  | [] => none
  | l :: rest =>
    if classKwHere l || (l.data.all pyIsWs && classKwFrom rest) then some 0
    else (classSearchIdx rest).map (· + 1)

/-- re.match of optional whitespace then class-or-def then whitespace
applied to a whole suffix string (the conservative blank-line test in the
add_block handler); the leading whitespace may span newlines. -/
def classDefStart (s : String) : Bool :=
  let cs := s.data.dropWhile pyIsWs
  (isPre "class".data cs && headIsWs (cs.drop 5)) ||
    (isPre "def".data cs && headIsWs (cs.drop 3))

/-- First index in a line list satisfying a predicate (the match_indices
head in the add_block handler). -/
def firstMatchIdx (p : String → Bool) : List String → Option Nat
  | [] => none
  | l :: rest => if p l then some 0 else (firstMatchIdx p rest).map (· + 1)

/-- A function-definition node of the CPython ast module, restricted to the
fields the source reads: name, def-line, inclusive last body line, and the
line numbers of the attached decorators. -/
structure PyFuncNode where
  name : String
  lineno : Nat
  end_lineno : Nat
  decorators : List Nat

/-- A top-level or class-body node of the parsed tree, as consumed by the
source: function definitions, class definitions with their body nodes, and
other statements. -/
inductive PyNode where
  | func : PyFuncNode → PyNode
  | cls : String → Nat → Nat → List PyNode → PyNode
  | stmt : Nat → Nat → PyNode

/-- A line the parser model treats as significant (not blank, not a pure
comment line). -/
def sigLine (l : String) : Bool := hasContent l && !strStartsWith (pyLstrip l) "#"

/-- Name introduced by a def or async-def header line, when the line is
one. -/
def defNameOf (l : String) : Option String :=
  let cs0 := l.data.dropWhile pyIsWs
  let cs := if isPre "async".data cs0 && headIsWs (cs0.drop 5)
    then (cs0.drop 5).dropWhile pyIsWs else cs0
  if isPre "def".data cs && headIsWs (cs.drop 3) then
    let nm := ((cs.drop 3).dropWhile pyIsWs).takeWhile isWordChar
    if nm.isEmpty then none else some (String.mk nm)
  else none

/-- Name introduced by a class header line, when the line is one. -/
def classNameOf (l : String) : Option String :=
  let cs := l.data.dropWhile pyIsWs
  if isPre "class".data cs && headIsWs (cs.drop 5) then
    let nm := ((cs.drop 5).dropWhile pyIsWs).takeWhile isWordChar
    if nm.isEmpty then none else some (String.mk nm)
  else none

/-- Bracket balance of a line, failing on a close without an open. -/
def bracketBal : List Char → Nat → Option Nat
  | [], d => some d
  | c :: cs, d =>
    if c = '(' || c = '[' || c = '\x7b' then bracketBal cs (d + 1)
    else if c = ')' || c = ']' || c = '\x7d' then
      (if d = 0 then none else bracketBal cs (d - 1))
    else bracketBal cs d

/-- Whether a physical line is inside the modelled source fragment: no
string quotes, balanced brackets, no backslash continuation (the model
refuses sources it could misparse). -/
def lineSelfContained (l : String) : Bool :=
  (!l.data.contains '\x22') && (!l.data.contains '\x27') &&
    bracketBal l.data 0 = some 0 &&
    (match l.data.getLast? with
     | some c => !(c = '\\')
     | none => true)

/-- Remainder of a line after its first bracket-depth-zero colon (the colon
closing a def or class header). -/
def afterHeaderColon : List Char → Nat → Option (List Char)
  | [], _ => none
  | c :: cs, d =>
    if c = '(' || c = '[' || c = '\x7b' then afterHeaderColon cs (d + 1)
    else if c = ')' || c = ']' || c = '\x7d' then
      (if d = 0 then none else afterHeaderColon cs (d - 1))
    else if c = ':' && d = 0 then some cs
    else afterHeaderColon cs d

/-- After the header colon: nothing but whitespace or a trailing comment
means the body is an indented block on the following lines. -/
def restBlank (cs : List Char) : Bool :=
  match cs.dropWhile pyIsWs with
  | [] => true
  | '#' :: _ => true
  | _ => false

/-- Collect the line numbers of a run of decorator lines at indent k,
skipping interleaved blank and comment lines. -/
def takeDecorators (k : Nat) : List (Nat × String) → List Nat × List (Nat × String)
  | [] => ([], [])
  | (n, l) :: rest =>
    if sigLine l && indentOf l = k && strStartsWith (pyLstrip l) "@" then
      let (ds, r) := takeDecorators k rest
      (n :: ds, r)
    else if !sigLine l then takeDecorators k rest
    else ([], (n, l) :: rest)

/-- The maximal region of lines belonging to a block opened at indent k:
insignificant lines and lines indented deeper than k. -/
def takeBlockRegion (k : Nat) : List (Nat × String) → List (Nat × String) × List (Nat × String)
  | [] => ([], [])
  | (n, l) :: rest =>
    if !sigLine l || indentOf l > k then
      let (a, b) := takeBlockRegion k rest
      ((n, l) :: a, b)
    else ([], (n, l) :: rest)

/-- Number of the last significant line of a region: the end_lineno the ast
reports for the construct owning the region. -/
def lastSigLineno (ls : List (Nat × String)) : Option Nat :=
  ls.foldl (fun acc (p : Nat × String) => if sigLine p.2 then some p.1 else acc) none

/-- Indent of the first significant line of a region (the body indentation
of a class). -/
def firstSigIndent : List (Nat × String) → Option Nat
  | [] => none
  | (_, l) :: rest => if sigLine l then some (indentOf l) else firstSigIndent rest

mutual

/-- Model of the CPython parser on one block at indent k over numbered
lines, fuelled.  Handles decorated def and class definitions with
single-line or indented bodies and other single-line statements; returns
none (a SyntaxError) outside this fragment. -/
def parseBlock (fuel : Nat) (k : Nat) (ls : List (Nat × String)) :
    Option (List PyNode × List (Nat × String)) :=
  match fuel with
  | 0 => none
  | fuel + 1 =>
    match ls with
    | [] => some ([], [])
    | (n, l) :: rest =>
      if !sigLine l then parseBlock fuel k rest
      else if indentOf l < k then some ([], (n, l) :: rest)
      else if indentOf l > k then none
      else if !lineSelfContained l then none
      else if strStartsWith (pyLstrip l) "@" then
        match takeDecorators k ((n, l) :: rest) with
        | (ds, (n2, l2) :: rest2) =>
          if indentOf l2 = k && lineSelfContained l2
              && ((defNameOf l2).isSome || (classNameOf l2).isSome) then
            parseHeadered fuel k ds n2 l2 rest2
          else none
        | (_, []) => none
      else if (defNameOf l).isSome || (classNameOf l).isSome then
        parseHeadered fuel k [] n l rest
      else
        match parseBlock fuel k rest with
        | none => none
        | some (ns, r) => some (PyNode.stmt n n :: ns, r)

/-- Parse one def or class whose header line and decorators are already
identified, then continue with the rest of the enclosing block. -/
def parseHeadered (fuel : Nat) (k : Nat) (ds : List Nat) (n : Nat) (l : String)
    (rest : List (Nat × String)) : Option (List PyNode × List (Nat × String)) :=
  match fuel with
  | 0 => none
  | fuel + 1 =>
    match afterHeaderColon l.data 0 with
    | none => none
    | some after =>
      if restBlank after then
        let (region, r2) := takeBlockRegion k rest
        match lastSigLineno region with
        | none => none
        | some endLn =>
          let mkRest := parseBlock fuel k r2
          match defNameOf l with
          | some nm =>
            (match mkRest with
             | none => none
             | some (ns, r) =>
               some (PyNode.func ⟨nm, n, endLn, ds⟩ :: ns, r))
          | none =>
            match classNameOf l with
            | none => none
            | some cn =>
              match firstSigIndent region with
              | none => none
              | some bodyK =>
                match parseBlock fuel bodyK region with
                | some (bodyNs, []) =>
                  (match mkRest with
                   | none => none
                   | some (ns, r) =>
                     some (PyNode.cls cn n endLn bodyNs :: ns, r))
                | _ => none
      else
        let mkRest := parseBlock fuel k rest
        match defNameOf l with
        | some nm =>
          (match mkRest with
           | none => none
           | some (ns, r) => some (PyNode.func ⟨nm, n, n, ds⟩ :: ns, r))
        | none =>
          match classNameOf l with
          | none => none
          | some cn =>
            match mkRest with
            | none => none
            | some (ns, r) => some (PyNode.cls cn n n [] :: ns, r)

end

/-- Model of ast.parse: split into lines numbered from one and parse the
top-level block; none models a SyntaxError. -/
def astParse (src : String) : Option (List PyNode) :=
  let numbered := (splitNL src).enum.map (fun p => (p.1 + 1, p.2))
  match parseBlock (numbered.length + 1) 0 numbered with
  | some (ns, []) => some ns
  | _ => none

/-- Python min over a nonempty list, seeded with its head. -/
def natMinList (a : Nat) (ls : List Nat) : Nat := ls.foldl Nat.min a

/-- Extent start of a function node: the def line, or its minimum with the
smallest decorator line when decorators exist (get_function_extent_ast,
lines 146-150). -/
def funcExtentStart (f : PyFuncNode) : Nat :=
  match f.decorators with
  | [] => f.lineno
  | d :: ds => Nat.min f.lineno (natMinList d ds)

/-- The top-level scan of get_function_extent_ast over tree.body: first
function node with the requested name wins; other nodes are skipped. -/
def getFunctionExtentCore : List PyNode → String → Option (Nat × Nat)
  | [], _ => none
  | PyNode.func f :: rest, nm =>
    if f.name = nm then some (funcExtentStart f, f.end_lineno)
    else getFunctionExtentCore rest nm
  | _ :: rest, nm => getFunctionExtentCore rest nm

/-- get_function_extent_ast(src, function_name): one-indexed inclusive
extent of a top-level function including decorators; none models the
(None, None) returns on a parse failure or a missing function. -/
def get_function_extent_ast (src : String) (fname : String) : Option (Nat × Nat) :=
  match astParse src with
  | none => none
  | some body => getFunctionExtentCore body fname

/-- The scan of get_method_extent_ast: the first class with the requested
name is searched for the method; later classes are not visited. -/
def getMethodExtentCore : List PyNode → String → String → Option (Nat × Nat)
  | [], _, _ => none
  | PyNode.cls cn _ _ body :: rest, cls, meth =>
    if cn = cls then getFunctionExtentCore body meth
    else getMethodExtentCore rest cls meth
  | _ :: rest, cls, meth => getMethodExtentCore rest cls meth

/-- get_method_extent_ast(src, class_name, method_name). -/
def get_method_extent_ast (src cls meth : String) : Option (Nat × Nat) :=
  match astParse src with
  | none => none
  | some body => getMethodExtentCore body cls meth

example : get_function_extent_ast "def greet():\n    print(2)\n" "greet" = some (1, 2) := by
  decide

example : get_function_extent_ast "x = 1\n" "f" = none := by decide

example :
    get_function_extent_ast "@deco\n@deco2\ndef f(x):\n    y = x\n    return y\n\nz = 1\n" "f"
      = some (1, 5) := by decide

example :
    get_method_extent_ast "class A:\n    def m(self):\n        pass\n    def q(self):\n        pass\n" "A" "q"
      = some (4, 5) := by decide

/-- Python s.endswith(p). -/
def strEndsWith (s p : String) : Bool := isPre p.data.reverse s.data.reverse

/-- Python s.strip(newline-only) on both ends. -/
def stripNlBoth (s : String) : String := lstripNl (rstripNl s)

/-- Python s.splitlines() without keepends (each keepends line loses its
one trailing newline). -/
def pySplitlines (s : String) : List String := (splitKeepEnds s).map rstripNl

/-- _replace_block(lines, start, end, block):
lines[:start] + [block.rstrip(newline) + newline] + lines[end:]. -/
def replaceBlockLines (lines : List String) (start endIdx : Nat) (block : String) :
    List String :=
  lines.take start ++ [rstripNl block ++ "\n"] ++ lines.drop endIdx

/-- The indentation-boundary while loop shared by the class and method
scans: starting at index i with the given remaining iteration budget,
advance past lines that are blank or indented deeper than the given level,
stopping at the first line with content at indent at most the level. -/
def boundedEndScanAux (indentVal : Nat) (lines : List String) : Nat → Nat → Nat
  | i, 0 => i
  | i, fuel + 1 =>
    let ln := lines.getD i ""
    if hasContent ln && indentOf ln ≤ indentVal then i
    else boundedEndScanAux indentVal lines (i + 1) fuel

/-- The unbounded variant running to the end of the line list. -/
def blockEndScan (indentVal : Nat) (lines : List String) (i : Nat) : Nat :=
  boundedEndScanAux indentVal lines i (lines.length - i)

/-- _append_func_before_class(src, block): insert a function block before
the first class definition, or append at end of file. -/
def appendFuncBeforeClass (src block : String) : String :=
  let normalizedSrc := normalizeNewlines src
  let normalizedBlock := pyRstrip block
  let lines := splitKeepEnds normalizedSrc
  match classSearchIdx lines with
  | some idx =>
    let prefixStr := joinLines (lines.take idx)
    let suffixStr := joinLines (lines.drop idx)
    let strippedPre := rstripNl prefixStr
    if !hasContent strippedPre then
      normalizedBlock ++ "\n\n" ++ lstripNl suffixStr
    else
      (strippedPre ++ "\n\n") ++ (normalizedBlock ++ "\n\n" ++ lstripNl suffixStr)
  | none =>
    let trimmed := pyRstrip normalizedSrc
    if trimmed ≠ "" then trimmed ++ "\n\n" ++ normalizedBlock ++ "\n"
    else normalizedBlock ++ "\n"

/-- _replace_function(src, name, block): replace the extent located by the
ast, falling back to append when the function is absent or the indices are
out of range. -/
def replaceFunction (src nm block : String) : String :=
  let normalizedSrc := normalizeNewlines src
  match get_function_extent_ast normalizedSrc nm with
  | none => appendFuncBeforeClass normalizedSrc block
  | some (s, e) =>
    let lines := splitKeepEnds normalizedSrc
    if 1 ≤ s ∧ s - 1 < lines.length ∧ 0 < e ∧ e ≤ lines.length ∧ s - 1 < e then
      joinLines (replaceBlockLines lines (s - 1) e block)
    else appendFuncBeforeClass normalizedSrc block

/-- _replace_class(src, cls, block): replace the regex-located class
extent, or append the block after a blank separator when the class is
absent. -/
def replaceClass (src cls block : String) : String :=
  let lines := splitKeepEnds src
  match firstMatchIdx (classHeaderMatch cls) lines with
  | none => rstripNl src ++ "\n\n" ++ pyRstrip block ++ "\n"
  | some startIdx =>
    let indent := indentOf (lines.getD startIdx "")
    let endIdx := boundedEndScanAux indent lines (startIdx + 1)
      (lines.length - (startIdx + 1))
    joinLines (lines.take startIdx ++ [pyRstrip block ++ "\n\n"] ++ lines.drop endIdx)

/-- Insert an indent string after every newline (the
block.rstrip().replace of _replace_method). -/
def insertAfterNl (ind : List Char) : List Char → List Char
  | [] => []
  | c :: cs =>
    if c = '\n' then '\n' :: (ind ++ insertAfterNl ind cs)
    else c :: insertAfterNl ind cs

/-- The decorator-widening while loop: step the start index down over
decorator lines while it stays above the guard index. -/
def decorWalk (lines : List String) (guard : Nat) : Nat → Nat
  | 0 => 0
  | i + 1 =>
    if guard < i + 1 && decoratorLine (lines.getD i "") then decorWalk lines guard i
    else i + 1

/-- _replace_method(src, cls, meth, block): replace (or append) a method
inside a class; a missing class raises. -/
def replaceMethod (src cls meth block : String) : Except String String :=
  let lines := splitKeepEnds src
  match firstMatchIdx (classHeaderMatch cls) lines with
  | none => .error ("Class " ++ cls ++ " not found")
  | some clsIdx =>
    let clsIndent := indentOf (lines.getD clsIdx "")
    let endIdx := boundedEndScanAux clsIndent lines (clsIdx + 1)
      (lines.length - (clsIdx + 1))
    let indentStr := String.mk (List.replicate (clsIndent + 4) ' ')
    let bodySlice := (lines.drop (clsIdx + 1)).take (endIdx - (clsIdx + 1))
    let methIdx := (firstMatchIdx (methDefMatch indentStr meth) bodySlice).map
      (· + (clsIdx + 1))
    let block1 := if strStartsWith block indentStr then block
      else indentStr ++ String.mk (insertAfterNl indentStr.data (pyRstrip block).data)
    let block2 := if methIdx = none && hasContent (lines.getD (endIdx - 1) "")
      then "\n" ++ block1 else block1
    match methIdx with
    | some mi =>
      let startIdx := decorWalk lines clsIdx mi
      let mEnd := boundedEndScanAux indentStr.data.length lines (startIdx + 1)
        (endIdx - (startIdx + 1))
      .ok (joinLines (lines.take startIdx ++ [block2 ++ "\n\n"]
        ++ ((lines.drop mEnd).take (endIdx - mEnd)) ++ lines.drop endIdx))
    | none =>
      .ok (joinLines (lines.take endIdx ++ [block2 ++ "\n\n"] ++ lines.drop endIdx))

/-- _remove_function(src, name): delete the ast-located extent, managing
blank lines; source unchanged when the function is absent. -/
def removeFunction (src nm : String) : String :=
  let normalizedSrc := normalizeNewlines src
  match get_function_extent_ast normalizedSrc nm with
  | none => src
  | some (s, e) =>
    let lines := splitKeepEnds normalizedSrc
    if 1 ≤ s ∧ s - 1 < lines.length ∧ 0 < e ∧ e ≤ lines.length ∧ s - 1 < e then
      let prefixStr := rstripNl (joinLines (lines.take (s - 1)))
      let suffixStr := lstripNl (joinLines (lines.drop e))
      if !hasContent prefixStr && !hasContent suffixStr then ""
      else if !hasContent prefixStr then pyLstrip suffixStr
      else if !hasContent suffixStr then prefixStr ++ "\n"
      else prefixStr ++ "\n\n\n" ++ suffixStr
    else src

/-- _remove_method(src, cls_name, meth_name): delete the ast-located method
extent with the blank-line policy of the source. -/
def removeMethod (src cls meth : String) : String :=
  let normalizedSrc := normalizeNewlines src
  match get_method_extent_ast normalizedSrc cls meth with
  | none => src
  | some (s, e) =>
    let lines := splitKeepEnds normalizedSrc
    if 1 ≤ s ∧ s - 1 < lines.length ∧ 0 < e ∧ e ≤ lines.length ∧ s - 1 < e then
      let prefixLines := lines.take (s - 1)
      let suffixLines := lines.drop e
      let prefixStr := rstripNl (joinLines prefixLines)
      let suffixStr := lstripNl (joinLines suffixLines)
      if !hasContent prefixStr && !hasContent suffixStr then ""
      else if !hasContent prefixStr then
        if strEndsWith (pyStrip (joinLines prefixLines)) ":" then
          joinLines prefixLines ++ suffixStr
        else pyLstrip suffixStr
      else if !hasContent suffixStr then prefixStr ++ "\n"
      else prefixStr ++ "\n\n" ++ suffixStr
    else src

/-- The class-header pattern of _remove_class: like the replace pattern but
without the trailing any-colon part. -/
def classHeadMatchNoColon (cls : String) (ln : String) : Bool :=
  let cs1 := ln.data.dropWhile pyIsWs
  isPre "class".data cs1 &&
    (let cs2 := cs1.drop 5
     headIsWs cs2 &&
       (let cs3 := cs2.dropWhile pyIsWs
        isPre cls.data cs3 &&
          (match cs3.drop cls.data.length with
           | [] => true
           | c :: _ => !isWordChar c)))

/-- _remove_class(src, cls): delete the class header and its indented
block; source unchanged when absent. -/
def removeClass (src cls : String) : String :=
  let lines := splitKeepEnds src
  match firstMatchIdx (classHeadMatchNoColon cls) lines with
  | none => src
  | some start =>
    let indent := indentOf (lines.getD start "")
    let endIdx := boundedEndScanAux indent lines (start + 1)
      (lines.length - (start + 1))
    joinLines (lines.take start ++ lines.drop endIdx)

/-- _reindent_code_block(original_block_str, indent_prefix). -/
def reindentCodeBlock (block indentPre : String) : String :=
  if block = "" then ""
  else joinNL ((pySplitlines block).map (fun l => indentPre ++ l))

/-- The top-blank-trimming while loop of patch_add_function. -/
def trimTopBlanks : List String → List String
  | a :: b :: rest =>
    if !hasContent a && !hasContent b then trimTopBlanks (b :: rest)
    else a :: b :: rest
  | ls => ls

/-- The removal ranges of patch_add_function: for every top-level function
named fn_name, the zero-based index of its first decorator line paired with
its one-based end line. -/
def collectRanges : List PyNode → String → List String → List (Nat × Nat)
  | [], _, _ => []
  | PyNode.func f :: rest, nm, lns =>
    if f.name = nm then
      (decorWalk lns 0 (f.lineno - 1), f.end_lineno) :: collectRanges rest nm lns
    else collectRanges rest nm lns
  | _ :: rest, nm, lns => collectRanges rest nm lns

/-- Greatest end line over the top-level function nodes (last_func_end). -/
def lastFuncEnd : List PyNode → Option Nat
  | [] => none
  | PyNode.func f :: rest =>
    (match lastFuncEnd rest with
     | none => some f.end_lineno
     | some m => some (Nat.max f.end_lineno m))
  | _ :: rest => lastFuncEnd rest

/-- Least start line over the top-level class nodes (first_class_start). -/
def firstClassStart : List PyNode → Option Nat
  | [] => none
  | PyNode.cls _ n _ _ :: rest =>
    (match firstClassStart rest with
     | none => some n
     | some m => some (Nat.min n m))
  | _ :: rest => firstClassStart rest

/-- patch_add_function(src, fn_code, fn_name): remove same-named top-level
functions, then insert the new function after the last function, before the
first class, or at the end.  Parse failures model the uncaught
SyntaxError. -/
def patchAddFunction (src fnCode : String) (fnName : Option String) :
    Except String String :=
  let srcLines0 := splitNL (rstripNl src)
  let doRemove := match fnName with
    | some nmv => nmv != ""
    | none => false
  let removed : Except String (List String) :=
    if doRemove then
      match astParse src with
      | none => .error "SyntaxError"
      | some module =>
        let ranges := collectRanges module ((fnName).getD "") srcLines0
        .ok ((srcLines0.enum.filter (fun p =>
          ranges.all (fun r => !(r.1 ≤ p.1 && p.1 + 1 ≤ r.2)))).map Prod.snd)
    else .ok srcLines0
  match removed with
  | .error e => .error e
  | .ok srcLines =>
    match astParse (joinNL srcLines) with
    | none => .error "SyntaxError"
    | some module2 =>
      let fnLines := splitNL (stripNlBoth fnCode) ++ [""]
      let insertAt := match lastFuncEnd module2 with
        | some e => e
        | none =>
          match firstClassStart module2 with
          | some c => c - 1
          | none => srcLines.length
      let fnLines2 := if 0 < insertAt && hasContent (srcLines.getD (insertAt - 1) "")
        then "" :: fnLines else fnLines
      let newLines := srcLines.take insertAt ++ fnLines2 ++ srcLines.drop insertAt
      .ok (pyRstrip (joinNL (trimTopBlanks newLines)) ++ "\n")

example : replaceClass "" "Foo" "class Foo:\n    pass" = "\n\nclass Foo:\n    pass\n" := by
  decide

example : replaceMethod "x = 1\n" "Foo" "m" "def m(self):\n    pass"
    = .error "Class Foo not found" := rfl

example : replaceFunction "def greet():\n    print(1)\n" "greet" "def greet():\n    print(2)"
    = "def greet():\n    print(2)\n" := by decide

example : patchAddFunction "x = 1\n" "def f():\n    pass" none
    = .ok "x = 1\n\ndef f():\n    pass\n" := rfl

/-- The scanning loop of _perform_anchor_block_removal in apply_patch:
`inRem` is in_removal_block, `found` is start_anchor_found.  The anchor
patterns are embedded as the line predicates given by re.search. -/
def removalLoop (sa ea : String → Bool) : List String → Bool → Bool → List String
  | [], _, _ => []
  | ln :: rest, inRem, found =>
    if !found && sa ln then removalLoop sa ea rest true true
    else if inRem then
      (if ea ln then removalLoop sa ea rest false found
       else removalLoop sa ea rest inRem found)
    else ln :: removalLoop sa ea rest inRem found

/-- _perform_anchor_block_removal(source_text, start_pattern, end_pattern)
from apply_patch: normalize newlines, split keeping ends, run the state
machine, join. -/
def performAnchorBlockRemoval (sa ea : String → Bool) (src : String) : String :=
  joinLines (removalLoop sa ea (splitKeepEnds (normalizeNewlines src)) false false)

/-- One pass of blank-line collapsing, keeping at most the first two blank
lines of every run. -/
def collapseAux : List String → Nat → List String
  | [], _ => []
  | l :: rest, n =>
    if hasContent l then l :: collapseAux rest 0
    else if n < 2 then l :: collapseAux rest (n + 1)
    else collapseAux rest (n + 1)

/-- Modelled from the spec: lint_code wraps autopep8.fix_code, an external
library whose code is not part of this repository; section 4.5 of the spec
describes the normalization as collapsing runs of three or more blank lines
to at most two, and the model is exactly that collapse. -/
def lint_code (src : String) : String := joinLines (collapseAux (splitKeepEnds src) 0)

def supportedVersions : List String := ["1.0", "1.2", "1.3", "1.4", "1.5", "1.6"]

def allowedPatchTypes : List String :=
  ["add_function", "add_method", "add_class", "add_block",
   "replace_function", "replace_method", "replace_class", "replace_block",
   "remove_function", "remove_method", "remove_class", "remove_block"]

def methodClassTypes : List String := ["add_method", "replace_method", "remove_method"]

def nameRequiredTypes : List String :=
  ["replace_function", "replace_method", "replace_class",
   "remove_function", "remove_method", "remove_class"]

/-- validate_spec(meta): the schema checks, in source order; raising
becomes an error value. -/
def validate_spec (meta : Meta) : Except String Unit :=
  if !(metaHasKey meta "VibeSpec" && metaHasKey meta "patch_type"
      && metaHasKey meta "file") then
    .error "Missing meta keys"
  else
    let vs := metaGetD meta "VibeSpec" ""
    if !(supportedVersions.contains vs) then
      .error ("Unsupported VibeSpec version: " ++ vs)
    else
      let pt := metaGetD meta "patch_type" ""
      if !(allowedPatchTypes.contains pt) then
        .error ("Unsupported patch_type: " ++ pt)
      else if methodClassTypes.contains pt && metaFalsy meta "class" then
        .error ("class key required for patch_type " ++ pt)
      else if nameRequiredTypes.contains pt && metaFalsy meta "name" then
        .error ("name key required for patch_type " ++ pt)
      else if pt = "add_block" then
        let pos := metaGetD meta "position" "end"
        if !(["start", "end", "before", "after"].contains pos) then
          .error ("Invalid add_block position: " ++ pos)
        else if (pos = "before" || pos = "after") && metaFalsy meta "anchor" then
          .error "add_block with this position requires an anchor regex"
        else .ok ()
      else if pt = "remove_block" then
        if metaFalsy meta "anchor_start" || metaFalsy meta "anchor_end" then
          .error "remove_block requires both anchor_start and anchor_end metadata keys"
        else .ok ()
      else if pt = "replace_block" then
        if metaFalsy meta "anchor_start" || metaFalsy meta "anchor_end" then
          .error "replace_block requires both anchor_start and anchor_end metadata keys"
        else .ok ()
      else .ok ()

/-- The VibeSpec header recognizer of load_patches: a hash, optional
whitespace, the VibeSpec tag and a dotted version number, whose text is
captured. -/
def vibeHeaderVersion (l : String) : Option String :=
  match l.data with
  | c :: rest =>
    if c = '#' then
      let r1 := rest.dropWhile pyIsWs
      if isPre "VibeSpec:".data r1 then
        let r2 := (r1.drop 9).dropWhile pyIsWs
        let d1 := r2.takeWhile Char.isDigit
        if d1.isEmpty then none
        else
          match r2.drop d1.length with
          | '.' :: r3 =>
            let d2 := r3.takeWhile Char.isDigit
            if d2.isEmpty then none else some (String.mk (d1 ++ '.' :: d2))
          | _ => none
      else none
    else none
  | [] => none

/-- Strip one layer of matching surrounding quotes from a scalar value. -/
def stripQuotes (v : String) : String :=
  match v.data with
  | c :: cs =>
    if 2 ≤ v.data.length && (c = '\x22' || c = '\x27')
        && cs.getLast? = some c then
      String.mk (cs.dropLast)
    else v
  | [] => v

/-- Decode one simple key-colon-value metadata line; none models an
undecodable line (the yaml failure). -/
def yamlSplitLine (l : String) : Option (String × String) :=
  if l.data.contains ':' then
    let k := l.data.takeWhile (fun c => c ≠ ':')
    let v := (l.data.dropWhile (fun c => c ≠ ':')).drop 1
    some (pyStrip (String.mk k), stripQuotes (pyStrip (String.mk v)))
  else none

/-- Model of yaml.safe_load on a block of simple scalar mapping lines,
later duplicates overwriting earlier ones. -/
def yamlParseAux : List String → Meta → Except String Meta
  | [], acc => .ok acc
  | l :: rest, acc =>
    match yamlSplitLine l with
    | none => .error "ParseError: undecodable metadata"
    | some (k, v) => yamlParseAux rest (metaSet acc k v)

/-- The metadata-absorbing inner loop of load_patches: keep taking lines
until a code marker, the next record header, or a blank line. -/
def absorbMeta : List String → List String × List String
  | [] => ([], [])
  | l :: rest =>
    if strStartsWith l "--- code:" || strStartsWith l "patch_type:"
        || !hasContent l then
      ([], l :: rest)
    else
      let (m, r) := absorbMeta rest
      (l :: m, r)

/-- The skip-until-patch_type loop of load_patches. -/
def skipToPatchType : List String → List String
  | [] => []
  | l :: rest =>
    if strStartsWith l "patch_type:" then l :: rest else skipToPatchType rest

/-- The code-body reader: literal lines are indented or blank. -/
def readCodeLines : List String → List String × List String
  | [] => ([], [])
  | l :: rest =>
    if strStartsWith l " " || strStartsWith l "\t" || !hasContent l then
      let (c, r) := readCodeLines rest
      (l :: c, r)
    else ([], l :: rest)

/-- The outer scanning loop of load_patches, fuelled (every iteration
consumes at least one line). -/
def loadLoop (fuel : Nat) (cur : Option String) (ls : List String) :
    Except String (List (Meta × String)) :=
  match fuel with
  | 0 => .error "internal: fuel exhausted"
  | fuel + 1 =>
    match ls with
    | [] => .ok []
    | l :: rest =>
      if !hasContent l then loadLoop fuel cur rest
      else
        match vibeHeaderVersion l with
        | some v => loadLoop fuel (some v) rest
        | none =>
          let startAndRest :=
            if strStartsWith l "patch_type:" then ([l], rest)
            else
              match skipToPatchType (l :: rest) with
              | [] => (([] : List String), ([] : List String))
              | p :: r => ([p], r)
          let (metaTail, rest2) := absorbMeta startAndRest.2
          match yamlParseAux (startAndRest.1 ++ metaTail) [] with
          | .error e => .error e
          | .ok meta0 =>
            let meta1 := match cur with
              | some v => metaSet meta0 "VibeSpec" v
              | none => meta0
            let codeAndRest :=
              match rest2 with
              | m :: r =>
                if strStartsWith m "--- code:" then
                  let (cls, r2) := readCodeLines r
                  (rstripNl (dedentStr (joinNL cls)), r2)
                else (("" : String), rest2)
              | [] => (("" : String), ([] : List String))
            match loadLoop fuel cur codeAndRest.2 with
            | .error e => .error e
            | .ok ps => .ok ((meta1, codeAndRest.1) :: ps)

/-- load_patches(patch_path): parse a patch document into ordered
(metadata, code) records. -/
def load_patches (text : String) : Except String (List (Meta × String)) :=
  let lines := pySplitlines text
  loadLoop (lines.length + 1) none lines

/-- First name found by a line scan of the block (the multiline
def-name-extraction regex of the add_method handler, and the class variant
for add_class). -/
def firstSomeName (f : String → Option String) : List String → Option String
  | [] => none
  | l :: rest =>
    match f l with
    | some nm => some nm
    | none => firstSomeName f rest

/-- The end-of-file append shared by the add_block end position and the
replace_block fallback. -/
def endAppend (src block : String) : Except String (Option String) :=
  let sep := if hasContent src && block ≠ "" then "\n\n" else "\n"
  let processed := rstripNl src
  if processed ≠ "" && block ≠ "" then .ok (some (processed ++ sep ++ block ++ "\n"))
  else if block ≠ "" then .ok (some (block ++ "\n"))
  else .ok (some (processed ++ (if processed ≠ "" then "\n" else "")))

/-- The add_block branch of apply_patch.  The res argument is the search
behaviour of a compiled user regex on one line. -/
def addBlockDispatch (res : String → String → Bool) (meta : Meta)
    (block src : String) : Except String (Option String) :=
  let lines := splitKeepEnds src
  let pos := metaGetD meta "position" "end"
  let anchor := metaGetD meta "anchor" ""
  if pos = "start" then
    let sep := if hasContent src && block ≠ "" then "\n\n" else "\n"
    .ok (some (if block ≠ "" then block ++ sep ++ src else src))
  else if pos = "before" || pos = "after" then
    if anchor = "" then .error "add_block with this position requires an anchor regex"
    else
      match firstMatchIdx (res anchor) lines with
      | none => endAppend src block
      | some anchorIdx =>
        let anchorLine := lines.getD anchorIdx ""
        let lws := leadingWs anchorLine
        let finalBlock := reindentCodeBlock block lws
        let insertionIdx :=
          if pos = "after" then
            boundedEndScanAux lws.data.length lines (anchorIdx + 1)
              (lines.length - (anchorIdx + 1))
          else anchorIdx
        let insStr := if finalBlock ≠ "" then finalBlock ++ "\n" else ""
        let prefix0 := joinLines (lines.take insertionIdx)
        let suffix := joinLines (lines.drop insertionIdx)
        let prefix1 := if hasContent prefix0 && !strEndsWith prefix0 "\n"
          then prefix0 ++ "\n" else prefix0
        let insStr2 := if insStr ≠ "" && hasContent suffix && classDefStart suffix
          then insStr ++ "\n" else insStr
        .ok (some (prefix1 ++ insStr2 ++ suffix))
  else if pos = "end" then endAppend src block
  else .ok none

/-- The replace_block branch of apply_patch. -/
def replaceBlockDispatch (res : String → String → Bool) (meta : Meta)
    (block src : String) : Except String (Option String) :=
  let sp := metaGetD meta "anchor_start" ""
  let ep := metaGetD meta "anchor_end" ""
  if sp = "" || ep = "" then
    .error "replace_block requires both anchor_start and anchor_end"
  else
    let nsrc := normalizeNewlines src
    let lines := splitKeepEnds nsrc
    match firstMatchIdx (res sp) lines with
    | some si =>
      (match firstMatchIdx (res ep) (lines.drop si) with
       | some k =>
         let ei := si + k + 1
         let ipre := leadingWs (lines.getD si "")
         let reind := reindentCodeBlock block ipre
         let repl := if reind ≠ "" then [reind ++ "\n"] else []
         .ok (some (joinLines (lines.take si ++ repl ++ lines.drop ei)))
       | none => endAppend src block)
    | none => endAppend src block

/-- The per-patch-type dispatch of apply_patch on the already-read source
text; an error models a raised exception.  ok none models the new_src-stays-
None path for an unrecognized type. -/
def dispatchPatch (res : String → String → Bool) (pt : String) (meta : Meta)
    (code block src : String) : Except String (Option String) :=
  if pt = "add_function" then
    match patchAddFunction src code (metaGet meta "name") with
    | .error e => .error e
    | .ok t => .ok (some t)
  else if pt = "add_method" then
    let cls := metaGetD meta "class" ""
    if cls = "" then .error "add_method requires class metadata"
    else
      match firstSomeName defNameOf (pySplitlines block) with
      | none => .error "add_method: cannot find method name in code block"
      | some nm =>
        match replaceMethod src cls nm block with
        | .error e => .error e
        | .ok t => .ok (some t)
  else if pt = "add_class" then
    match firstSomeName classNameOf (pySplitlines block) with
    | none => .error "add_class: cannot find class name in code block"
    | some cn => .ok (some (replaceClass src cn block))
  else if pt = "add_block" then addBlockDispatch res meta block src
  else if pt = "remove_function" then
    let nm := metaGetD meta "name" ""
    if nm = "" then .error "remove_function requires name"
    else .ok (some (removeFunction src nm))
  else if pt = "remove_method" then
    let cls := metaGetD meta "class" ""
    let nm := metaGetD meta "name" ""
    if cls = "" || nm = "" then .error "remove_method requires class and name"
    else .ok (some (removeMethod src cls nm))
  else if pt = "remove_class" then
    let nm := metaGetD meta "name" ""
    if nm = "" then .error "remove_class requires name"
    else .ok (some (removeClass src nm))
  else if pt = "remove_block" then
    let sp := metaGetD meta "anchor_start" ""
    let ep := metaGetD meta "anchor_end" ""
    if sp = "" || ep = "" then .error "remove_block requires anchor_start and anchor_end"
    else .ok (some (performAnchorBlockRemoval (res sp) (res ep) src))
  else if pt = "replace_function" then
    let nm := metaGetD meta "name" ""
    if nm = "" then .error "replace_function requires name metadata"
    else if !hasContent block then .error "replace_function requires a non-empty code block"
    else .ok (some (replaceFunction src nm block))
  else if pt = "replace_method" then
    let cls := metaGetD meta "class" ""
    let nm := metaGetD meta "name" ""
    if cls = "" || nm = "" then .error "replace_method requires class and name"
    else if !hasContent block then .error "replace_method requires a non-empty code block"
    else
      match replaceMethod src cls nm block with
      | .error e => .error e
      | .ok t => .ok (some t)
  else if pt = "replace_class" then
    let nm := metaGetD meta "name" ""
    if nm = "" then .error "replace_class requires name"
    else if !hasContent block then .error "replace_class requires a non-empty code block"
    else .ok (some (replaceClass src nm block))
  else if pt = "replace_block" then replaceBlockDispatch res meta block src
  else .ok none

/-- apply_patch(meta, code, repo, dry) over the explicit filesystem state:
the create/backup/read lifecycle, the dispatch, the normalization, and the
dry-run versus write decision.  Returns the preview text on a dry run and
the filesystem reached (also on an error, whose earlier effects persist);
ts is the backup timestamp. -/
def apply_patch (res : String → String → Bool) (meta : Meta) (code : String)
    (fs : FS) (dry : Bool) (ts : String) : Except String (Option String) × FS :=
  match metaGet meta "file" with
  | none => (.error "KeyError: file", fs)
  | some file =>
    match metaGet meta "patch_type" with
    | none => (.error "KeyError: patch_type", fs)
    | some pt =>
      let existed := fsHasFile fs file
      if !existed && !(strStartsWith pt "add_" || strStartsWith pt "replace_") then
        (.error ("Target file not found for patch type " ++ pt), fs)
      else
        let fs1 :=
          if !existed then
            (let fsm := fsMkdirParents fs file
             if !dry then fsWrite fsm file "" else fsm)
          else if !dry then fsBackup fs file ts
          else fs
        let src := if existed then (fsRead fs file).getD "" else ""
        let block := if code ≠ "" then rstripNl (dedentStr code) else ""
        match dispatchPatch res pt meta code block src with
        | .error e => (.error e, fs1)
        | .ok r =>
          let newSrc := lint_code (r.getD src)
          if dry then (.ok (some newSrc), fs1)
          else if newSrc ≠ src || !existed then (.ok none, fsWrite fs1 file newSrc)
          else (.ok none, fs1)

/-- apply_patches(patches, repo, dry): validate then apply each record in
order; the first raised error stops the batch, earlier writes staying in
place. -/
def apply_patches (res : String → String → Bool) :
    List (Meta × String) → FS → Bool → String → Except String Unit × FS
  | [], fs, _, _ => (.ok (), fs)
  | (meta, code) :: rest, fs, dry, ts =>
    match validate_spec meta with
    | .error e => (.error e, fs)
    | .ok _ =>
      match apply_patch res meta code fs dry ts with
      | (.error e, fs1) => (.error e, fs1)
      | (.ok _, fs1) => apply_patches res rest fs1 dry ts

theorem removalLoop_done (sa ea : String → Bool) (C : List String) :
    removalLoop sa ea C false true = C := by
  induction C with
  | nil => rfl
  | cons l rest ih => simp [removalLoop, ih]

theorem removalLoop_inside (sa ea : String → Bool) (B : List String)
    (e : String) (C : List String) (hB : ∀ l ∈ B, ea l = false)
    (he : ea e = true) :
    removalLoop sa ea (B ++ e :: C) true true = C := by
  induction B with
  | nil => simp [removalLoop, he, removalLoop_done]
  | cons b B ih =>
    have hb : ea b = false := hB b (by simp)
    have ih' := ih (fun l hl => hB l (by simp [hl]))
    simp [removalLoop, hb, ih']

theorem removalLoop_inside_all (sa ea : String → Bool) (B : List String)
    (hB : ∀ l ∈ B, ea l = false) :
    removalLoop sa ea B true true = [] := by
  induction B with
  | nil => rfl
  | cons b B ih =>
    have hb : ea b = false := hB b (by simp)
    have ih' := ih (fun l hl => hB l (by simp [hl]))
    simp [removalLoop, hb, ih']

theorem removalLoop_before (sa ea : String → Bool) (A : List String)
    (s : String) (rest : List String) (hA : ∀ l ∈ A, sa l = false)
    (hs : sa s = true) :
    removalLoop sa ea (A ++ s :: rest) false false
      = A ++ removalLoop sa ea rest true true := by
  induction A with
  | nil => simp [removalLoop, hs]
  | cons a A ih =>
    have ha : sa a = false := hA a (by simp)
    have ih' := ih (fun l hl => hA l (by simp [hl]))
    simp [removalLoop, ha, ih']

/-- C2: remove_block deletes exactly the first window: every line from the
first line matching anchor_start through the first subsequent line matching
anchor_end, inclusive, and reproduces all remaining lines verbatim — in
particular every later window matching the same anchors is untouched, the
scan never resuming after the first window. -/
theorem remove_block_first_window_only (sa ea : String → Bool) (src : String)
    (A : List String) (s : String) (B : List String) (e : String)
    (C : List String)
    (hsplit : splitKeepEnds (normalizeNewlines src) = A ++ s :: (B ++ e :: C))
    (hA : ∀ l ∈ A, sa l = false) (hs : sa s = true)
    (hB : ∀ l ∈ B, ea l = false) (he : ea e = true) :
    performAnchorBlockRemoval sa ea src = joinLines (A ++ C) := by
  unfold performAnchorBlockRemoval
  rw [hsplit, removalLoop_before sa ea A s _ hA hs,
    removalLoop_inside sa ea B e C hB he]

def saW : String → Bool := fun l => strStartsWith l "#S"

def eaW : String → Bool := fun l => strStartsWith l "#E"

theorem remove_block_first_window_only_witness :
    performAnchorBlockRemoval saW eaW "a\n#S\nb\n#E\nc\n#S\nd\n#E\ne\n"
      = "a\nc\n#S\nd\n#E\ne\n" := by
  rw [remove_block_first_window_only saW eaW _ ["a\n"] "#S\n" ["b\n"] "#E\n"
    ["c\n", "#S\n", "d\n", "#E\n", "e\n"] (by decide) (by decide) (by decide)
    (by decide) (by decide)]
  decide

/-- C10: when some line matches anchor_start but no later line matches
anchor_end, remove_block deletes every line from the first anchor_start
match through the end of the file (it does not leave the source unchanged
and does not raise). -/
theorem remove_block_missing_end_deletes_to_eof (sa ea : String → Bool)
    (src : String) (A : List String) (s : String) (B : List String)
    (hsplit : splitKeepEnds (normalizeNewlines src) = A ++ s :: B)
    (hA : ∀ l ∈ A, sa l = false) (hs : sa s = true)
    (hB : ∀ l ∈ B, ea l = false) :
    performAnchorBlockRemoval sa ea src = joinLines A := by
  unfold performAnchorBlockRemoval
  rw [hsplit, removalLoop_before sa ea A s _ hA hs,
    removalLoop_inside_all sa ea B hB]
  simp

def saW2 : String → Bool := fun l => strStartsWith l "-- S"

def eaW2 : String → Bool := fun l => strStartsWith l "-- E"

theorem remove_block_missing_end_deletes_to_eof_witness :
    performAnchorBlockRemoval saW2 eaW2 "keep\n-- S\nx\ny\n" = "keep\n" := by
  rw [remove_block_missing_end_deletes_to_eof saW2 eaW2 _ ["keep\n"] "-- S\n"
    ["x\n", "y\n"] (by decide) (by decide) (by decide) (by decide)]
  decide

/-- A line-search predicate standing for a compiled regex with no match on
any line of interest. -/
def resNone : String → String → Bool := fun _ _ => false

/-- C1: a dry-run apply on an add_class record whose target sub/a.py lies
in a directory that does not exist returns the preview text but also
creates the directory sub: target.parent.mkdir runs before the dry check,
so the filesystem is not identical before and after the call. -/
theorem dry_run_creates_directory :
    (apply_patch resNone [("patch_type", "add_class"), ("file", "sub/a.py")]
        "class Foo:\n    pass\n" ⟨[], []⟩ true "ts")
      = (.ok (some "\n\nclass Foo:\n    pass\n"), ⟨[], ["sub"]⟩)
    ∧ (⟨[], ["sub"]⟩ : FS) ≠ ⟨[], []⟩ := by
  exact ⟨rfl, by decide⟩

theorem natMinList_eq_self (a : Nat) (l : List Nat) (h : ∀ x ∈ l, a ≤ x) :
    natMinList a l = a := by
  induction l generalizing a with
  | nil => rfl
  | cons x xs ih =>
    have hx : a ≤ x := h x (by simp)
    have : Nat.min a x = a := Nat.min_eq_left hx
    simp only [natMinList, List.foldl_cons, this]
    exact ih a (fun y hy => h y (by simp [hy]))

theorem getFunctionExtentCore_skip (pre rest : List PyNode) (nm : String)
    (hpre : ∀ f : PyFuncNode, PyNode.func f ∈ pre → f.name ≠ nm) :
    getFunctionExtentCore (pre ++ rest) nm = getFunctionExtentCore rest nm := by
  induction pre with
  | nil => rfl
  | cons node pre ih =>
    have ih' := ih (fun f hf => hpre f (by simp [hf]))
    cases node with
    | func f =>
      have : f.name ≠ nm := hpre f (by simp)
      simp [getFunctionExtentCore, this, ih']
    | cls cn a b body => simp [getFunctionExtentCore, ih']
    | stmt a b => simp [getFunctionExtentCore, ih']

/-- C3: for a top-level function with N decorator lines directly preceding
its header line h and M body lines below it (the ast reporting end line
h + M), the locator computes the extent from the minimum of the header line
and the earliest decorator line down to the last body line, and that extent
spans exactly N + 1 + M lines. -/
theorem function_extent_spans_decorators_header_body (pre post : List PyNode)
    (fname : String) (h N M : Nat)
    (hpre : ∀ f : PyFuncNode, PyNode.func f ∈ pre → f.name ≠ fname)
    (hN : N < h) :
    getFunctionExtentCore
        (pre ++ PyNode.func ⟨fname, h, h + M, (List.range N).map (fun k => h - N + k)⟩
          :: post) fname
      = some (h - N, h + M)
    ∧ (h + M) - (h - N) + 1 = N + 1 + M := by
  have hstart :
      funcExtentStart ⟨fname, h, h + M, (List.range N).map (fun k => h - N + k)⟩
        = h - N := by
    cases N with
    | zero => simp [funcExtentStart]
    | succ n =>
      rw [List.range_succ_eq_map]
      simp only [funcExtentStart, List.map_cons, Nat.add_zero]
      rw [natMinList_eq_self (h - (n + 1)) _ (by
        intro x hx
        simp only [List.map_map, List.mem_map, Function.comp] at hx
        obtain ⟨k, _, hk⟩ := hx
        omega)]
      exact Nat.min_eq_right (by omega)
  constructor
  · rw [getFunctionExtentCore_skip pre _ fname hpre]
    simp [getFunctionExtentCore, hstart]
  · omega

theorem function_extent_spans_decorators_header_body_witness :
    getFunctionExtentCore
        [PyNode.stmt 1 1,
         PyNode.func ⟨"f", 4, 7, [2, 3]⟩] "f" = some (2, 7)
    ∧ (4 + 3) - (4 - 2) + 1 = 2 + 1 + 3 := by
  have h := function_extent_spans_decorators_header_body [PyNode.stmt 1 1] []
    "f" 4 2 3 (by intro f hf; simp at hf) (by omega)
  simpa using h

theorem assocGet_assocSet_self (l : List (String × String)) (k v : String) :
    assocGet (assocSet l k v) k = some v := by
  induction l with
  | nil => simp [assocGet, assocSet]
  | cons p rest ih =>
    by_cases h : p.1 = k
    · simp [assocSet, assocGet, h]
    · simp [assocSet, assocGet, h, ih]

theorem fsRead_fsWrite_self (fs : FS) (p c : String) :
    fsRead (fsWrite fs p c) p = some c := by
  simp [fsRead, fsWrite, assocGet_assocSet_self]

/-- C5 counterexample: a live add_class apply onto a missing a.py with the
code block of the spec scenario creates the file, but its content is the
class definition preceded by two blank lines, not exactly the class
definition. -/
theorem add_class_new_file_content_counterexample :
    fsRead (apply_patch resNone [("patch_type", "add_class"), ("file", "a.py")]
        "class Foo:\n    pass\n" ⟨[], []⟩ false "20250101").2 "a.py"
      = some "\n\nclass Foo:\n    pass\n"
    ∧ (some "\n\nclass Foo:\n    pass\n" : Option String)
      ≠ some "class Foo:\n    pass\n" := by
  exact ⟨rfl, by decide⟩

/-- C5 as amended: add_class on a target that does not exist does create
the file on a live run, but the written content is the (normalized) code
block preceded by the two-newline separator the append path inserts into
the empty source, not exactly the class definition. -/
theorem add_class_missing_target_creates_file (res : String → String → Bool)
    (meta : Meta) (code : String) (fs : FS) (ts f cn : String)
    (hfile : metaGet meta "file" = some f)
    (hpt : metaGet meta "patch_type" = some "add_class")
    (hmiss : fsHasFile fs f = false)
    (hcn : firstSomeName classNameOf (pySplitlines (rstripNl (dedentStr code)))
      = some cn)
    (hcode : code ≠ "") :
    (apply_patch res meta code fs false ts).1 = .ok none
    ∧ fsRead (apply_patch res meta code fs false ts).2 f
        = some (lint_code ("\n\n" ++ pyRstrip (rstripNl (dedentStr code)) ++ "\n")) := by
  have hrc : replaceClass "" cn (rstripNl (dedentStr code))
      = "\n\n" ++ pyRstrip (rstripNl (dedentStr code)) ++ "\n" := by
    show replaceClass "" cn (rstripNl (dedentStr code)) = _
    simp only [replaceClass]
    rfl
  simp only [apply_patch, hfile, hpt, hmiss, dispatchPatch, hcn, hcode,
    Bool.not_false, Bool.and_self, if_true, if_false, Bool.false_and,
    Bool.not_true]
  simp [dispatchPatch, hcn, hcode, hrc, fsRead_fsWrite_self]
  rw [if_neg (show ¬(strStartsWith "add_class" "add_" = false
    ∧ strStartsWith "add_class" "replace_" = false) by decide)]
  exact ⟨rfl, fsRead_fsWrite_self _ _ _⟩

theorem add_class_missing_target_creates_file_witness :
    (apply_patch resNone [("patch_type", "add_class"), ("file", "pkg/m.py")]
        "class Foo:\n    pass\n" ⟨[], []⟩ false "ts").1 = .ok none
    ∧ fsRead (apply_patch resNone [("patch_type", "add_class"), ("file", "pkg/m.py")]
        "class Foo:\n    pass\n" ⟨[], []⟩ false "ts").2 "pkg/m.py"
      = some "\n\nclass Foo:\n    pass\n" := by
  have h := add_class_missing_target_creates_file resNone
    [("patch_type", "add_class"), ("file", "pkg/m.py")] "class Foo:\n    pass\n"
    ⟨[], []⟩ "ts" "pkg/m.py" "Foo" (by rfl) (by rfl) (by rfl) (by rfl) (by decide)
  exact ⟨h.1, h.2.trans (by rfl)⟩

/-- C7: a record whose patch_type is add_method but whose class key is
missing or empty fails validation with an error, and the batch applier
stops there with the filesystem unchanged: no file is created, modified or
backed up for that record. -/
theorem add_method_missing_class_blocks_mutation (res : String → String → Bool)
    (meta : Meta) (code : String) (rest : List (Meta × String)) (fs : FS)
    (dry : Bool) (ts : String)
    (hpt : metaGet meta "patch_type" = some "add_method")
    (hcls : metaFalsy meta "class" = true) :
    ∃ e, validate_spec meta = .error e
      ∧ apply_patches res ((meta, code) :: rest) fs dry ts = (.error e, fs) := by
  have hptD : metaGetD meta "patch_type" "" = "add_method" := by
    simp [metaGetD, hpt]
  have hA1 : allowedPatchTypes.contains "add_method" = true := by decide
  have hM1 : methodClassTypes.contains "add_method" = true := by decide
  have hv : ∃ e, validate_spec meta = Except.error e := by
    simp only [validate_spec]
    cases hA : (metaHasKey meta "VibeSpec" && metaHasKey meta "patch_type"
        && metaHasKey meta "file") with
    | false => exact ⟨"Missing meta keys", by simp⟩
    | true =>
      cases hB : supportedVersions.contains (metaGetD meta "VibeSpec" "") with
      | false =>
        exact ⟨"Unsupported VibeSpec version: " ++ metaGetD meta "VibeSpec" "", by simp⟩
      | true =>
        refine ⟨"class key required for patch_type add_method", ?_⟩
        simp [hptD, hcls, hA1, hM1]
        rw [if_pos (show ("add_method" : String) ∈ allowedPatchTypes by decide),
          if_pos (show ("add_method" : String) ∈ methodClassTypes by decide)]
  obtain ⟨e, he⟩ := hv
  exact ⟨e, he, by simp [apply_patches, he]⟩

theorem add_method_missing_class_blocks_mutation_witness :
    ∃ e, validate_spec [("VibeSpec", "1.6"), ("patch_type", "add_method"),
        ("file", "a.py")] = .error e
      ∧ apply_patches resNone
          [([("VibeSpec", "1.6"), ("patch_type", "add_method"), ("file", "a.py")],
            "def m(self):\n    pass\n")]
          ⟨[("a.py", "x = 1\n")], []⟩ false "ts"
        = (.error e, ⟨[("a.py", "x = 1\n")], []⟩) :=
  add_method_missing_class_blocks_mutation resNone
    [("VibeSpec", "1.6"), ("patch_type", "add_method"), ("file", "a.py")]
    "def m(self):\n    pass\n" [] ⟨[("a.py", "x = 1\n")], []⟩ false "ts"
    (by rfl) (by rfl)

theorem firstMatchIdx_eq_none (p : String → Bool) (ls : List String)
    (h : ∀ l ∈ ls, p l = false) : firstMatchIdx p ls = none := by
  induction ls with
  | nil => rfl
  | cons l rest ih =>
    simp [firstMatchIdx, h l (by simp), ih (fun x hx => h x (by simp [hx]))]

/-- C6 counterexample: a replace_method record whose enclosing class is
absent from the source makes apply raise the class-not-found error instead
of appending the code with a warning. -/
theorem replace_method_missing_class_raises :
    (apply_patch resNone [("patch_type", "replace_method"), ("file", "a.py"),
        ("class", "Greeter"), ("name", "m")] "def m(self):\n    pass\n"
        ⟨[("a.py", "x = 1\n")], []⟩ true "ts").1
      = .error "Class Greeter not found" := rfl

/-- C6 as amended: when the named construct is absent, replace_function and
replace_class fall back to appending the new code with a warning; for
replace_method the append fallback applies only to a missing method inside
an existing class, while a missing enclosing class raises an error rather
than appending. -/
theorem replace_by_name_missing_construct_policy (res : String → String → Bool)
    (ts : String) :
    (∀ (meta : Meta) (code blk : String) (fs : FS) (f src nm : String),
        metaGet meta "file" = some f →
        metaGet meta "patch_type" = some "replace_function" →
        metaGet meta "name" = some nm → nm ≠ "" →
        fsRead fs f = some src →
        rstripNl (dedentStr code) = blk → hasContent blk = true →
        get_function_extent_ast (normalizeNewlines src) nm = none →
        (apply_patch res meta code fs true ts).1
          = .ok (some (lint_code (appendFuncBeforeClass (normalizeNewlines src) blk))))
    ∧ (∀ (meta : Meta) (code blk : String) (fs : FS) (f src nm : String),
        metaGet meta "file" = some f →
        metaGet meta "patch_type" = some "replace_class" →
        metaGet meta "name" = some nm → nm ≠ "" →
        fsRead fs f = some src →
        rstripNl (dedentStr code) = blk → hasContent blk = true →
        (∀ l ∈ splitKeepEnds src, classHeaderMatch nm l = false) →
        (apply_patch res meta code fs true ts).1
          = .ok (some (lint_code (rstripNl src ++ "\n\n" ++ pyRstrip blk ++ "\n"))))
    ∧ (∀ (meta : Meta) (code blk : String) (fs : FS) (f src cls nm : String),
        metaGet meta "file" = some f →
        metaGet meta "patch_type" = some "replace_method" →
        metaGet meta "class" = some cls → cls ≠ "" →
        metaGet meta "name" = some nm → nm ≠ "" →
        fsRead fs f = some src →
        rstripNl (dedentStr code) = blk → hasContent blk = true →
        (∀ l ∈ splitKeepEnds src, classHeaderMatch cls l = false) →
        (apply_patch res meta code fs true ts).1
          = .error ("Class " ++ cls ++ " not found")) := by
  refine ⟨?_, ?_, ?_⟩
  · intro meta code blk fs f src nm hfile hpt hnm hnme hread hblk hbc hext
    have hcode0 : code ≠ "" := by
      intro h0
      rw [h0] at hblk
      rw [← hblk] at hbc
      exact absurd hbc (by decide)
    have hnmD : metaGetD meta "name" "" = nm := by simp [metaGetD, hnm]
    have hrf : replaceFunction src nm blk
        = appendFuncBeforeClass (normalizeNewlines src) blk := by
      simp [replaceFunction, hext]
    have hdisp : dispatchPatch res "replace_function" meta code blk src
        = .ok (some (appendFuncBeforeClass (normalizeNewlines src) blk)) := by
      simp [dispatchPatch, hnmD, hnme, hbc, hrf]
    simp [apply_patch, hfile, hpt, fsHasFile, hread, hcode0, hblk, hdisp]
  · intro meta code blk fs f src nm hfile hpt hnm hnme hread hblk hbc hnone
    have hcode0 : code ≠ "" := by
      intro h0
      rw [h0] at hblk
      rw [← hblk] at hbc
      exact absurd hbc (by decide)
    have hnmD : metaGetD meta "name" "" = nm := by simp [metaGetD, hnm]
    have hrc : replaceClass src nm blk
        = rstripNl src ++ "\n\n" ++ pyRstrip blk ++ "\n" := by
      simp [replaceClass, firstMatchIdx_eq_none _ _ hnone]
    have hdisp : dispatchPatch res "replace_class" meta code blk src
        = .ok (some (rstripNl src ++ "\n\n" ++ pyRstrip blk ++ "\n")) := by
      simp [dispatchPatch, hnmD, hnme, hbc, hrc]
    simp [apply_patch, hfile, hpt, fsHasFile, hread, hcode0, hblk, hdisp]
  · intro meta code blk fs f src cls nm hfile hpt hcl hcle hnm hnme hread hblk hbc hnone
    have hcode0 : code ≠ "" := by
      intro h0
      rw [h0] at hblk
      rw [← hblk] at hbc
      exact absurd hbc (by decide)
    have hnmD : metaGetD meta "name" "" = nm := by simp [metaGetD, hnm]
    have hclD : metaGetD meta "class" "" = cls := by simp [metaGetD, hcl]
    have hrm : replaceMethod src cls nm blk
        = .error ("Class " ++ cls ++ " not found") := by
      simp [replaceMethod, firstMatchIdx_eq_none _ _ hnone]
    have hdisp : dispatchPatch res "replace_method" meta code blk src
        = .error ("Class " ++ cls ++ " not found") := by
      simp [dispatchPatch, hnmD, hnme, hclD, hcle, hbc, hrm]
    simp [apply_patch, hfile, hpt, fsHasFile, hread, hcode0, hblk, hdisp]

theorem replace_by_name_missing_construct_policy_witness :
    (apply_patch resNone [("patch_type", "replace_function"), ("file", "w.py"),
        ("name", "g")] "def g():\n    pass\n" ⟨[("w.py", "x = 1\n")], []⟩ true "ts").1
      = .ok (some "x = 1\n\ndef g():\n    pass\n")
    ∧ (apply_patch resNone [("patch_type", "replace_class"), ("file", "w.py"),
        ("name", "C")] "class C:\n    pass\n" ⟨[("w.py", "x = 1\n")], []⟩ true "ts").1
      = .ok (some "x = 1\n\nclass C:\n    pass\n")
    ∧ (apply_patch resNone [("patch_type", "replace_method"), ("file", "w.py"),
        ("class", "C"), ("name", "m")] "def m(self):\n    pass\n"
        ⟨[("w.py", "x = 1\n")], []⟩ true "ts").1
      = .error "Class C not found" := by
  obtain ⟨h1, h2, h3⟩ := replace_by_name_missing_construct_policy resNone "ts"
  refine ⟨?_, ?_, ?_⟩
  · exact (h1 _ "def g():\n    pass\n" "def g():\n    pass" _ "w.py" "x = 1\n" "g"
      (by rfl) (by rfl) (by rfl) (by decide) (by rfl) (by rfl) (by decide)
      (by rfl)).trans (by rfl)
  · exact (h2 _ "class C:\n    pass\n" "class C:\n    pass" _ "w.py" "x = 1\n" "C"
      (by rfl) (by rfl) (by rfl) (by decide) (by rfl) (by rfl) (by decide)
      (by decide)).trans (by rfl)
  · exact h3 _ "def m(self):\n    pass\n" "def m(self):\n    pass" _ "w.py" "x = 1\n"
      "C" "m" (by rfl) (by rfl) (by rfl) (by decide) (by rfl) (by decide) (by rfl)
      (by rfl) (by decide) (by decide)

theorem head_of_strStartsWith (l : String) (c0 : Char) (p : String) (cs0 : List Char)
    (hp : p.data = c0 :: cs0) (h : strStartsWith l p = true) :
    ∃ cs, l.data = c0 :: cs := by
  cases hd : l.data with
  | nil =>
    rw [strStartsWith, hd, hp] at h
    simp [isPre] at h
  | cons c cs =>
    rw [strStartsWith, hd, hp] at h
    simp only [isPre, Bool.and_eq_true, beq_iff_eq] at h
    exact ⟨cs, by rw [h.1]⟩

theorem hasContent_of_patchType (l : String)
    (h : strStartsWith l "patch_type:" = true) : hasContent l = true := by
  obtain ⟨cs, hd⟩ := head_of_strStartsWith l 'p' "patch_type:" _ rfl h
  simp only [hasContent, hd, List.any_cons]
  rw [show (!pyIsWs 'p') = true from by decide]
  simp

theorem vibeHeader_none_of_patchType (l : String)
    (h : strStartsWith l "patch_type:" = true) : vibeHeaderVersion l = none := by
  obtain ⟨cs, hd⟩ := head_of_strStartsWith l 'p' "patch_type:" _ rfl h
  unfold vibeHeaderVersion
  rw [hd]
  simp

theorem absorbMeta_all (ls : List String)
    (h : ∀ l ∈ ls, hasContent l = true ∧ strStartsWith l "patch_type:" = false
        ∧ strStartsWith l "--- code:" = false) :
    absorbMeta ls = (ls, []) := by
  induction ls with
  | nil => rfl
  | cons l rest ih =>
    obtain ⟨h1, h2, h3⟩ := h l (by simp)
    simp [absorbMeta, h1, h2, h3, ih (fun x hx => h x (by simp [hx]))]

/-- C8 counterexample: a multi-record document whose first record reaches
the next patch_type header without any code-marker line, and whose second
record reaches the end of the document without one, parses successfully —
load_patches returns both records with empty code bodies instead of
failing with a ParseError. -/
theorem record_without_code_marker_counterexample :
    load_patches
        "patch_type: remove_function\nfile: a.py\nname: f\npatch_type: remove_class\nfile: b.py\nname: C\n"
      = .ok [([("patch_type", "remove_function"), ("file", "a.py"), ("name", "f")], ""),
             ([("patch_type", "remove_class"), ("file", "b.py"), ("name", "C")], "")]
    := rfl

/-- C8 as amended: when a record starts (a patch_type metadata line) and no
code-block marker is reached before the end of the document, parsing
succeeds and produces that record with an empty code body (consistent with
pure-removal records); no ParseError occurs on this path. -/
theorem record_without_code_marker_yields_empty_code (doc l0 : String)
    (metaLines : List String) (m : Meta)
    (hsplit : pySplitlines doc = l0 :: metaLines)
    (hl0 : strStartsWith l0 "patch_type:" = true)
    (hml : ∀ l ∈ metaLines, hasContent l = true
        ∧ strStartsWith l "patch_type:" = false
        ∧ strStartsWith l "--- code:" = false)
    (hy : yamlParseAux (l0 :: metaLines) [] = .ok m) :
    load_patches doc = .ok [(m, "")] := by
  have hc0 := hasContent_of_patchType l0 hl0
  have hv0 := vibeHeader_none_of_patchType l0 hl0
  have habs := absorbMeta_all metaLines hml
  unfold load_patches
  rw [hsplit]
  show loadLoop ((l0 :: metaLines).length + 1) none (l0 :: metaLines)
    = Except.ok [(m, "")]
  rw [List.length_cons]
  simp only [loadLoop, hc0, Bool.not_true, Bool.false_eq_true, if_false, hv0,
    hl0, if_true, habs, List.singleton_append, hy]

theorem record_without_code_marker_yields_empty_code_witness :
    load_patches "patch_type: remove_class\nfile: b.py\nname: Q"
      = .ok [([("patch_type", "remove_class"), ("file", "b.py"), ("name", "Q")], "")] :=
  record_without_code_marker_yields_empty_code _ "patch_type: remove_class"
    ["file: b.py", "name: Q"]
    [("patch_type", "remove_class"), ("file", "b.py"), ("name", "Q")]
    (by rfl) (by rfl) (by decide) (by rfl)

theorem joinLines_singleton (x : String) : joinLines [x] = x := by
  show String.mk (x.data ++ []) = x
  rw [List.append_nil]

def metaRF9 : Meta := [("patch_type", "replace_function"), ("file", "a.py"), ("name", "f")]

/-- C9 counterexample: applying the same replace_function record twice is
not idempotent.  With name f and a code block that does not define f, the
first application replaces the body of f by the block; reapplying the
record to that output no longer finds f and appends the block a second
time, so the two outputs differ. -/
theorem replace_function_twice_counterexample :
    (apply_patch resNone metaRF9 "x = 1\n"
        ⟨[("a.py", "def f():\n    pass\n")], []⟩ true "ts").1
      = .ok (some "x = 1\n")
    ∧ (apply_patch resNone metaRF9 "x = 1\n"
        ⟨[("a.py", "x = 1\n")], []⟩ true "ts").1
      = .ok (some "x = 1\n\nx = 1\n")
    ∧ ("x = 1\n\nx = 1\n" : String) ≠ "x = 1\n" :=
  ⟨rfl, rfl, by decide⟩

/-- C9 as amended: reapplying a replace_function record to the first
output T is the identity whenever the locator, re-run on T, finds the named
function at an extent whose lines are exactly the spliced code block and
the normalizations fix T — in particular when the code block is precisely a
top-level definition of that function.  When the name is absent from T the
second application appends the block again (see the counterexample). -/
theorem replace_function_relocated_fixed (res : String → String → Bool)
    (meta : Meta) (code : String) (fs : FS) (ts f nm T blk : String)
    (P S : List String) (s e : Nat)
    (hfile : metaGet meta "file" = some f)
    (hpt : metaGet meta "patch_type" = some "replace_function")
    (hnm : metaGet meta "name" = some nm) (hnme : nm ≠ "")
    (hread : fsRead fs f = some T)
    (hblk : rstripNl (dedentStr code) = blk) (hbc : hasContent blk = true)
    (hnorm : normalizeNewlines T = T)
    (hext : get_function_extent_ast T nm = some (s, e))
    (hsplitT : splitKeepEnds T = P ++ splitKeepEnds (rstripNl blk ++ "\n") ++ S)
    (hs : P.length = s - 1) (hs1 : 1 ≤ s)
    (he : e = s - 1 + (splitKeepEnds (rstripNl blk ++ "\n")).length)
    (hlint : lint_code T = T) :
    (apply_patch res meta code fs true ts).1 = .ok (some T) := by
  have hcode0 : code ≠ "" := by
    intro h0
    rw [h0] at hblk
    rw [← hblk] at hbc
    exact absurd hbc (by decide)
  have hnmD : metaGetD meta "name" "" = nm := by simp [metaGetD, hnm]
  have hK : 1 ≤ (splitKeepEnds (rstripNl blk ++ "\n")).length := by
    rcases hsk : splitKeepEnds (rstripNl blk ++ "\n") with _ | ⟨a, rest⟩
    · have hj := joinLines_splitKeepEnds (rstripNl blk ++ "\n")
      rw [hsk] at hj
      have hd := congrArg String.data hj
      have hd2 : (rstripNl blk ++ "\n").data = (rstripNl blk).data ++ ['\n'] := rfl
      rw [hd2] at hd
      simp [joinLines] at hd
    · simp
  have hlen : (splitKeepEnds T).length
      = P.length + ((splitKeepEnds (rstripNl blk ++ "\n")).length + S.length) := by
    rw [hsplitT, List.append_assoc, List.length_append, List.length_append]
  have hrfT : replaceFunction T nm blk = T := by
    simp only [replaceFunction, hnorm, hext]
    rw [if_pos (by omega)]
    have htake : (splitKeepEnds T).take (s - 1) = P := by
      rw [hsplitT, List.append_assoc]
      exact List.take_left' hs
    have hdrop : (splitKeepEnds T).drop e = S := by
      rw [hsplitT]
      exact List.drop_left' (by rw [List.length_append]; omega)
    simp only [replaceBlockLines]
    rw [htake, hdrop]
    have hflat : joinLines (P ++ [rstripNl blk ++ "\n"] ++ S)
        = joinLines P ++ (rstripNl blk ++ "\n") ++ joinLines S := by
      rw [joinLines_append, joinLines_append, joinLines_singleton]
    rw [hflat, ← joinLines_splitKeepEnds (rstripNl blk ++ "\n"),
      ← joinLines_append, ← joinLines_append, ← hsplitT, joinLines_splitKeepEnds]
  have hdisp : dispatchPatch res "replace_function" meta code blk T
      = .ok (some T) := by
    simp [dispatchPatch, hnmD, hnme, hbc, hrfT]
  simp [apply_patch, hfile, hpt, fsHasFile, hread, hcode0, hblk, hdisp, hlint]

def metaRF9g : Meta :=
  [("patch_type", "replace_function"), ("file", "g.py"), ("name", "greet")]

theorem replace_function_relocated_fixed_witness :
    (apply_patch resNone metaRF9g "def greet():\n    print(2)\n"
        ⟨[("g.py", "def greet():\n    print(1)\n")], []⟩ true "ts").1
      = .ok (some "def greet():\n    print(2)\n")
    ∧ (apply_patch resNone metaRF9g "def greet():\n    print(2)\n"
        ⟨[("g.py", "def greet():\n    print(2)\n")], []⟩ true "ts").1
      = .ok (some "def greet():\n    print(2)\n") := by
  constructor
  · rfl
  · exact replace_function_relocated_fixed resNone metaRF9g
      "def greet():\n    print(2)\n" ⟨[("g.py", "def greet():\n    print(2)\n")], []⟩
      "ts" "g.py" "greet" "def greet():\n    print(2)\n" "def greet():\n    print(2)"
      [] [] 1 2 (by rfl) (by rfl) (by rfl) (by decide) (by rfl) (by rfl) (by decide)
      (by rfl) (by rfl) (by decide) (by rfl) (by decide) (by decide) (by rfl)

theorem firstMatchIdx_append (p : String → Bool) (A : List String) (x : String)
    (rest : List String) (hA : ∀ l ∈ A, p l = false) (hx : p x = true) :
    firstMatchIdx p (A ++ x :: rest) = some A.length := by
  induction A with
  | nil => simp [firstMatchIdx, hx]
  | cons a A ih =>
    have ha := hA a (by simp)
    simp [firstMatchIdx, ha, ih (fun l hl => hA l (by simp [hl]))]


theorem getD_of_drop (lines : List String) :
    ∀ (i : Nat) (x : String) (rest : List String),
    List.drop i lines = x :: rest → lines.getD i "" = x := by
  induction lines with
  | nil =>
    intro i x rest h
    rw [List.drop_nil] at h
    cases h
  | cons l ls ih =>
    intro i x rest h
    cases i with
    | zero =>
      simp only [List.drop_zero] at h
      rw [List.getD_cons_zero]
      exact (List.cons.inj h).1
    | succ n =>
      rw [List.drop_succ_cons] at h
      rw [List.getD_cons_succ]
      exact ih n x rest h

theorem boundedEndScanAux_finds (indentVal : Nat) (lines : List String)
    (B : List String) (c : String) (D : List String) :
    ∀ i : Nat, lines.drop i = B ++ c :: D →
    (∀ l ∈ B, hasContent l = false ∨ indentVal < indentOf l) →
    hasContent c = true → indentOf c ≤ indentVal →
    boundedEndScanAux indentVal lines i (B.length + 1 + D.length) = i + B.length := by
  induction B with
  | nil =>
    intro i hdrop _ hc hcind
    have hget : lines.getD i "" = c := getD_of_drop lines i c D hdrop
    have hf : ([] : List String).length + 1 + D.length = D.length + 1 := by
      simp
      omega
    rw [hf]
    simp only [boundedEndScanAux, hget]
    simp [hc, hcind]
  | cons b B ih =>
    intro i hdrop hB hc hcind
    have hgetb : lines.getD i "" = b := getD_of_drop lines i b (B ++ c :: D) hdrop
    have hdrop' : lines.drop (i + 1) = B ++ c :: D := by
      have h1 : (lines.drop i).drop 1 = B ++ c :: D := by rw [hdrop]; rfl
      rwa [List.drop_drop] at h1
    have hb := hB b (by simp)
    have hf : (b :: B).length + 1 + D.length = (B.length + 1 + D.length) + 1 := by
      simp [List.length_cons]
      omega
    rw [hf]
    simp only [boundedEndScanAux, hgetb]
    have hcond : (hasContent b && decide (indentOf b ≤ indentVal)) = false := by
      rcases hb with hb1 | hb2
      · simp [hb1]
      · simp [Nat.not_le.mpr hb2]
    rw [if_neg (by simp [hcond])]
    rw [ih (i + 1) hdrop' (fun l hl => hB l (by simp [hl])) hc hcind]
    simp [List.length_cons]
    omega

/-- The behaviour of re.search for the caret-import-os anchor pattern on
one line: a match exactly when the line starts with the import-os text. -/
def resImportOs : String → String → Bool := fun pat ln =>
  if pat = "^import os" then strStartsWith ln "import os" else false

def metaAB4 : Meta :=
  [("patch_type", "add_block"), ("file", "a.py"), ("position", "after"),
   ("anchor", "^import os")]

/-- C4 counterexample: on the spec scenario the inserted block lands after
the existing blank line (the after-scan skips blank lines), so the output
is not the claimed text with import sys immediately after the import os
line and before the blank line. -/
theorem add_block_after_counterexample :
    (apply_patch resImportOs metaAB4 "import sys"
        ⟨[("a.py", "import os\n\ndef f(): pass\n")], []⟩ true "ts").1
      = .ok (some "import os\n\nimport sys\n\ndef f(): pass\n")
    ∧ ("import os\n\nimport sys\n\ndef f(): pass\n" : String)
      ≠ "import os\nimport sys\n\ndef f(): pass\n" :=
  ⟨rfl, by decide⟩

/-- The text the add_block before/after path splices once the insertion
index is resolved into the lines before it and the lines from it on: the
prefix newline fixup, the reindented block with its trailing newline and
conservative extra blank line, then the suffix, as in the add_block
handler. -/
def addBlockInsertionText (blk : String) (pre : List String) (lws : String)
    (suf : List String) : String :=
  let fb := reindentCodeBlock blk lws
  let ins := if fb ≠ "" then fb ++ "\n" else ""
  let p := joinLines pre
  let p1 := if hasContent p && !strEndsWith p "\n" then p ++ "\n" else p
  let suffix := joinLines suf
  let ins2 := if ins ≠ "" && hasContent suffix && classDefStart suffix
    then ins ++ "\n" else ins
  p1 ++ ins2 ++ suffix

/-- C4 as amended: for add_block position=after whose anchor line does not
open an indented block, insertion is not directly after the anchor line:
the scan also skips any immediately following blank (or deeper-indented)
lines, inserting just before the first subsequent non-blank line with
indent at most the anchor indentation, and adds a blank line after the
block when the suffix starts a class or def. -/
theorem add_block_after_skips_blank_lines (res : String → String → Bool)
    (meta : Meta) (code blk : String) (fs : FS) (ts f src a anc c : String)
    (A B D : List String)
    (hfile : metaGet meta "file" = some f)
    (hpt : metaGet meta "patch_type" = some "add_block")
    (hpos : metaGet meta "position" = some "after")
    (hanc : metaGet meta "anchor" = some a) (hane : a ≠ "")
    (hread : fsRead fs f = some src)
    (hblk : (if code = "" then "" else rstripNl (dedentStr code)) = blk)
    (hsplit : splitKeepEnds src = A ++ anc :: (B ++ c :: D))
    (hA : ∀ l ∈ A, res a l = false) (hm : res a anc = true)
    (hB : ∀ l ∈ B, hasContent l = false ∨ indentOf anc < indentOf l)
    (hc : hasContent c = true) (hcind : indentOf c ≤ indentOf anc) :
    (apply_patch res meta code fs true ts).1
      = .ok (some (lint_code (addBlockInsertionText blk
          (A ++ anc :: B) (leadingWs anc) (c :: D)))) := by
  have hgroup : splitKeepEnds src = (A ++ anc :: B) ++ c :: D := by
    rw [hsplit]
    simp [List.append_assoc]
  have hposD : metaGetD meta "position" "end" = "after" := by simp [metaGetD, hpos]
  have hancD : metaGetD meta "anchor" "" = a := by simp [metaGetD, hanc]
  have hidx : firstMatchIdx (res a) (splitKeepEnds src) = some A.length := by
    rw [hsplit]
    exact firstMatchIdx_append (res a) A anc _ hA hm
  have hget : (splitKeepEnds src).getD A.length "" = anc := by
    apply getD_of_drop _ A.length anc (B ++ c :: D)
    rw [hsplit]
    exact List.drop_left' rfl
  have hdropA : (splitKeepEnds src).drop (A.length + 1) = B ++ c :: D := by
    have hre : A ++ anc :: (B ++ c :: D) = (A ++ [anc]) ++ (B ++ c :: D) := by
      simp [List.append_assoc]
    rw [hsplit, hre]
    exact List.drop_left' (by simp)
  have hlenL : (splitKeepEnds src).length
      = (A.length + 1) + (B.length + 1 + D.length) := by
    rw [hsplit]
    simp [List.length_append, List.length_cons]
    omega
  have hfuel : (splitKeepEnds src).length - (A.length + 1)
      = B.length + 1 + D.length := by omega
  have hscan : boundedEndScanAux (leadingWs anc).data.length (splitKeepEnds src)
      (A.length + 1) ((splitKeepEnds src).length - (A.length + 1))
      = A.length + 1 + B.length := by
    rw [hfuel]
    have hlw : (leadingWs anc).data.length = indentOf anc := rfl
    rw [hlw]
    have hfind := boundedEndScanAux_finds (indentOf anc) (splitKeepEnds src) B c D
      (A.length + 1) hdropA hB hc hcind
    omega
  have htake : (splitKeepEnds src).take (A.length + 1 + B.length)
      = A ++ anc :: B := by
    rw [hgroup]
    exact List.take_left' (by simp [List.length_append, List.length_cons]; omega)
  have hdrop2 : (splitKeepEnds src).drop (A.length + 1 + B.length) = c :: D := by
    rw [hgroup]
    exact List.drop_left' (by simp [List.length_append, List.length_cons]; omega)
  have hdisp : addBlockDispatch res meta blk src
      = .ok (some (addBlockInsertionText blk
          (A ++ anc :: B) (leadingWs anc) (c :: D))) := by
    simp only [addBlockDispatch, addBlockInsertionText, hposD, hancD, hidx, hget,
      hscan]
    simp [hane, htake, hdrop2]
  have hdd : dispatchPatch res "add_block" meta code blk src
      = addBlockDispatch res meta blk src := by
    simp [dispatchPatch]
  simp [apply_patch, hfile, hpt, fsHasFile, hread, hblk, hdd, hdisp]

theorem add_block_after_skips_blank_lines_witness :
    (apply_patch resImportOs
        [("patch_type", "add_block"), ("file", "b.py"), ("position", "after"),
         ("anchor", "^import os")] "import sys"
        ⟨[("b.py", "import os\n\ndef f(): pass\n")], []⟩ true "ts").1
      = .ok (some "import os\n\nimport sys\n\ndef f(): pass\n") := by
  have h := add_block_after_skips_blank_lines resImportOs
    [("patch_type", "add_block"), ("file", "b.py"), ("position", "after"),
     ("anchor", "^import os")] "import sys" "import sys"
    ⟨[("b.py", "import os\n\ndef f(): pass\n")], []⟩
    "ts" "b.py" "import os\n\ndef f(): pass\n" "^import os" "import os\n"
    "def f(): pass\n" [] ["\n"] []
    (by rfl) (by rfl) (by rfl) (by rfl) (by decide) (by rfl) (by rfl) (by decide)
    (by decide) (by decide) (by decide) (by decide) (by decide)
  exact h.trans (by rfl)

end Vibe
